import Mathlib

/-!
Verification development for the Real-Estate-Deal-Analyzer ingestion core:
the data normalization / deduplication engine (`DataNormalizationService`
in `src/services/DataNormalization.ts`) and the in-process job queue
(`JobQueueSystem` in `src/services/HistoricalPricingService.ts`).

The TypeScript source is shallowly embedded: JS numbers are rationals
(`ℚ`), a JS division whose result would be non-finite (`NaN`/`Infinity`)
is modelled as `none` in an `Option ℚ`, the declared interface types
determine the Lean field types (`zipCode?: string` becomes
`Option String`; a required `string` field is a `String`, whose JS-falsy
value is the empty string), and side effects (console logging, timers)
are modelled by explicit state passing / a labelled step relation.
-/

namespace RealEstate

attribute [local semireducible] Rat.add Rat.mul Rat.inv Rat.sub

/-- JS string `toLowerCase()`, character by character (the core
`String.toLower` is implemented with a non-reducible helper). -/
def jsToLower (s : String) : String :=
  String.mk (s.data.map Char.toLower)

/-- JS string `toUpperCase()`, character by character. -/
def jsToUpper (s : String) : String :=
  String.mk (s.data.map Char.toUpper)

/-- JS string `trim()`: strip whitespace from both ends. -/
def jsTrim (s : String) : String :=
  String.mk (((s.data.dropWhile Char.isWhitespace).reverse.dropWhile
    Char.isWhitespace).reverse)

/-- JS number division `a / b`, with the non-finite results (`0/0 = NaN`,
`x/0 = ±Infinity`) modelled as `none`. -/
def jsDivQ (a b : ℚ) : Option ℚ :=
  if b = 0 then none else some (a / b)

/-- `Math.round(x * 100) / 100`: rounding to 2 decimals. JS `Math.round`
rounds half toward positive infinity, i.e. `⌊x + 1/2⌋`. -/
def round2 (q : ℚ) : ℚ :=
  (⌊q * 100 + 1 / 2⌋ : ℚ) / 100

/-- A character of JS regex class `\w`: `[A-Za-z0-9_]`. -/
def isWordChar (c : Char) : Bool :=
  c.isAlpha || c.isDigit || c = '_'

/-- A whitespace character (JS regex class `\s`). -/
def isWsChar (c : Char) : Bool :=
  c.isWhitespace

/-- `replace(/\s+/g, ' ')`: each maximal run of whitespace collapses to a
single space. `prevWs` records whether the previously read character was
whitespace (i.e. we are inside a run already replaced). -/
def collapseWsAux (prevWs : Bool) : List Char → List Char
  | [] => []
  | c :: cs =>
    if isWsChar c then
      if prevWs then collapseWsAux true cs
      else ' ' :: collapseWsAux true cs
    else c :: collapseWsAux false cs

def collapseWs (cs : List Char) : List Char :=
  collapseWsAux false cs

/-- The composite of the nine word-boundary street-suffix replacements in
`normalizeAddress`: each `replace(/\b(long|short)\b/g, 'short')` rewrites
exactly the maximal `\w`-runs equal to `long` or `short` to `short`, so
their sequential composition acts on whole words by this lookup. -/
def suffixSub (w : String) : String :=
  if w = "street" ∨ w = "st" then "st"
  else if w = "avenue" ∨ w = "ave" then "ave"
  else if w = "road" ∨ w = "rd" then "rd"
  else if w = "boulevard" ∨ w = "blvd" then "blvd"
  else if w = "drive" ∨ w = "dr" then "dr"
  else if w = "lane" ∨ w = "ln" then "ln"
  else if w = "court" ∨ w = "ct" then "ct"
  else if w = "place" ∨ w = "pl" then "pl"
  else if w = "parkway" ∨ w = "pkwy" then "pkwy"
  else if w = "circle" ∨ w = "cir" then "cir"
  else w

/-- Emit an accumulated maximal `\w`-run through `suffixSub`. -/
def flushWord (acc : List Char) : List Char :=
  if acc = [] then [] else (suffixSub (String.mk acc.reverse)).data

/-- Apply `suffixSub` to every maximal `\w`-run of the string; characters
outside `\w`-runs are kept as-is. `acc` holds the current run reversed. -/
def mapWordRunsAux (acc : List Char) : List Char → List Char
  | [] => flushWord acc
  | c :: cs =>
    if isWordChar c then mapWordRunsAux (c :: acc) cs
    else flushWord acc ++ c :: mapWordRunsAux [] cs

def mapWordRuns (cs : List Char) : List Char :=
  mapWordRunsAux [] cs

/-- `normalizeAddress(address)`: lowercase, trim, collapse whitespace,
rewrite street-suffix words to their abbreviated forms, then strip every
character that is neither `\w` nor `\s` (`replace(/[^\w\s]/g, '')`). -/
def normalizeAddress (address : String) : String :=
  let s := jsTrim (jsToLower address)
  let collapsed := collapseWs s.data
  let substituted := mapWordRuns collapsed
  String.mk (substituted.filter (fun c => isWordChar c || isWsChar c))

/-- The `typeMap` lookup table of `normalizePropertyType`. -/
def typeMap : List (String × String) :=
  [("multi-family", "apartment"), ("multifamily", "apartment"),
   ("apartment complex", "apartment"), ("apartments", "apartment"),
   ("office building", "office"), ("office space", "office"),
   ("retail space", "retail"), ("shopping center", "retail"),
   ("strip mall", "retail"), ("warehouse", "industrial"),
   ("distribution", "industrial"), ("manufacturing", "industrial"),
   ("flex space", "industrial"), ("mixed use", "mixed-use"),
   ("mixed-use", "mixed-use")]

/-- `normalizePropertyType(type)`: lowercase + trim, then `typeMap`
lookup, falling back to the normalized string itself. -/
def normalizePropertyType (type : String) : String :=
  let normalized := jsTrim (jsToLower type)
  (typeMap.lookup normalized).getD normalized

/-- The `stateMap` lookup table of `normalizeState`. -/
def stateMap : List (String × String) :=
  [("georgia", "GA"), ("florida", "FL"), ("alabama", "AL"),
   ("tennessee", "TN"), ("north carolina", "NC"), ("south carolina", "SC")]

/-- `normalizeState(state)`: map a known full state name (lowercased,
trimmed) to its 2-letter code, otherwise uppercase the input. -/
def normalizeState (state : String) : String :=
  let normalized := jsTrim (jsToLower state)
  (stateMap.lookup normalized).getD (jsToUpper state)

/-- `normalizeZipCode(zipCode)`: strip non-digits (`replace(/\D/g,'')`),
take the first 5 characters, left-pad with `'0'` to length 5. -/
def normalizeZipCode (zipCode : String) : String :=
  let digits := (zipCode.data.filter Char.isDigit).take 5
  String.mk (List.replicate (5 - digits.length) '0' ++ digits)

/-- The `RawProperty` interface. Field types follow the declaration:
`zipCode?: string` is optional, every other field is required; the
free-form index-signature extras are not consulted by the engine and are
omitted. JS numbers are rationals. -/
structure RawProperty where
  id : String
  source : String
  address : String
  city : String
  state : String
  zipCode : Option String
  propertyType : String
  listingPrice : ℚ
  sqft : ℚ
deriving DecidableEq, Repr

/-- Whether `property.address` is JS-falsy (empty) or shorter than 10. -/
def addressWeak (p : RawProperty) : Bool :=
  p.address = "" || p.address.length < 10

/-- Whether `property.address.match(/\d+/)` fails: no digit character. -/
def addressNoDigit (p : RawProperty) : Bool :=
  !(p.address.data.any Char.isDigit)

/-- Whether `!property.zipCode`: absent or empty string. -/
def zipMissing (p : RawProperty) : Bool :=
  match p.zipCode with
  | none => true
  | some z => z = ""

/-- `calculateConfidence(property)`: start at 100; -20 for a weak address,
-15 for an address without a digit, -15 for a missing zip, -10 each for a
falsy city/state, -20 for a falsy or non-positive listing price, -15 for
a falsy or non-positive sqft; +10 for source `LoopNet`, else +5 for
source `Crexi`; clamp with `Math.max(0, Math.min(100, confidence))`. -/
def calculateConfidence (p : RawProperty) : ℤ :=
  let c : ℤ := 100
  let c := if addressWeak p then c - 20 else c
  let c := if addressNoDigit p then c - 15 else c
  let c := if zipMissing p then c - 15 else c
  let c := if p.city = "" then c - 10 else c
  let c := if p.state = "" then c - 10 else c
  let c := if p.listingPrice = 0 ∨ p.listingPrice ≤ 0 then c - 20 else c
  let c := if p.sqft = 0 ∨ p.sqft ≤ 0 then c - 15 else c
  let c := if p.source = "LoopNet" then c + 10
           else if p.source = "Crexi" then c + 5 else c
  max 0 (min 100 c)

/-- The `NormalizedProperty` interface. `pricePerSqft` is the one field
whose JS value can be non-finite (division by `sqft = 0`), modelled as
`none`. -/
structure NormalizedProperty where
  id : String
  source : String
  normalizedAddress : String
  city : String
  state : String
  zipCode : String
  propertyType : String
  listingPrice : ℚ
  sqft : ℚ
  pricePerSqft : Option ℚ
  confidence : ℤ
  duplicateGroup : Option String := none
deriving DecidableEq, Repr

/-- `normalizeProperty(rawProperty)`: canonicalize each field; zip falls
back to `'00000'` when falsy; `pricePerSqft = Math.round(lp/sqft*100)/100`
(non-finite when `sqft = 0`). -/
def normalizeProperty (p : RawProperty) : NormalizedProperty :=
  { id := p.id
    source := p.source
    normalizedAddress := normalizeAddress p.address
    city := jsTrim p.city
    state := normalizeState p.state
    zipCode := match p.zipCode with
               | some z => if z = "" then "00000" else normalizeZipCode z
               | none => "00000"
    propertyType := normalizePropertyType p.propertyType
    listingPrice := p.listingPrice
    sqft := p.sqft
    pricePerSqft := (jsDivQ p.listingPrice p.sqft).map round2
    confidence := calculateConfidence p
    duplicateGroup := none }

/-- One cell step of the inner loop of `levenshteinDistance`: compute the
tail of the new DP row. `c` is the current character of `str2`, the list
argument the remaining characters of `str1`, `prev` the previous row
starting at the diagonal position, and `q` the entry of the new row just
to the left. Recurrence as in the source: equal characters copy the
diagonal, otherwise `1 + min(diagonal, up, left)`. -/
def levRowAux (c : Char) : List Char → List Nat → Nat → List Nat
  | [], _, _ => []
  | x :: xs, prev, q =>
    match prev with
    | p0 :: tail =>
      let p1 := tail.headD 0
      let q' := if x = c then p0 else 1 + min p0 (min p1 q)
      q' :: levRowAux c xs tail q'
    | [] => []

/-- The next DP row: first entry is `matrix[i][0] = i` (previous first
entry plus one), the rest by `levRowAux`. -/
def levNextRow (c : Char) (s1 : List Char) (prev : List Nat) : List Nat :=
  let q0 := prev.headD 0 + 1
  q0 :: levRowAux c s1 prev q0

/-- `levenshteinDistance(str1, str2)`: the full-matrix DP of the source,
row `0` is `[0..str1.length]`, one row per character of `str2`, result
`matrix[str2.length][str1.length]` (last entry of the final row). -/
def levenshteinDistance (s1 s2 : List Char) : Nat :=
  (s2.foldl (fun row c => levNextRow c s1 row) (List.range (s1.length + 1))).getLastD 0

/-- `stringSimilarity(str1, str2)`: `(longer.length - levenshtein) /
longer.length`, `1.0` when both strings are empty. On equal lengths the
source picks `str2` as `longer`. -/
def stringSimilarity (str1 str2 : String) : ℚ :=
  let longer := if str1.length > str2.length then str1 else str2
  let shorter := if str1.length > str2.length then str2 else str1
  if longer.length = 0 then 1
  else ((longer.length : ℚ) - (levenshteinDistance longer.data shorter.data : ℚ)) / (longer.length : ℚ)

/-- `calculateSimilarity(prop1, prop2)`: weighted sum — address
similarity × 0.4, +0.15 same city (case-insensitive), +0.1 same state,
+0.05 same zip, +0.1 same property type, +0.1 × (1 − relative sqft
difference), +0.1 × (1 − relative price difference); capped at 1 by
`Math.min`. The two relative differences divide by `Math.max` of the
fields, so when both sqft (or both prices) are `0` the JS result is
`NaN`, modelled as `none`; every comparison against `NaN` is false. -/
def calculateSimilarity (p1 p2 : NormalizedProperty) : Option ℚ :=
  let base :=
    stringSimilarity p1.normalizedAddress p2.normalizedAddress * (4 / 10)
    + (if jsToLower p1.city = jsToLower p2.city then 15 / 100 else 0)
    + (if p1.state = p2.state then 1 / 10 else 0)
    + (if p1.zipCode = p2.zipCode then 5 / 100 else 0)
    + (if p1.propertyType = p2.propertyType then 1 / 10 else 0)
  match jsDivQ |p1.sqft - p2.sqft| (max p1.sqft p2.sqft),
        jsDivQ |p1.listingPrice - p2.listingPrice| (max p1.listingPrice p2.listingPrice) with
  | some sqftDiff, some priceDiff =>
      some (min 1 (base + (1 - sqftDiff) * (1 / 10) + (1 - priceDiff) * (1 / 10)))
  | _, _ => none

/-- `similarity >= threshold` of the source: false when the similarity is
`NaN` (`none`). -/
def similarityAtLeast (threshold : ℚ) (p1 p2 : NormalizedProperty) : Bool :=
  match calculateSimilarity p1 p2 with
  | some v => threshold ≤ v
  | none => false

/-- Inner loop of `findDuplicates`: scan the records after the seed; a
record whose id is not yet processed and whose similarity with the seed
reaches the threshold joins the group and its id is marked processed.
Returns the joined records (in scan order) and the final processed set. -/
def scanGroup (seed : NormalizedProperty) (threshold : ℚ) :
    List NormalizedProperty → List String → List NormalizedProperty × List String
  | [], processed => ([], processed)
  | r :: rs, processed =>
    if r.id ∈ processed then scanGroup seed threshold rs processed
    else if similarityAtLeast threshold seed r then
      let sg := scanGroup seed threshold rs (r.id :: processed)
      (r :: sg.1, sg.2)
    else scanGroup seed threshold rs processed

/-- Outer loop of `findDuplicates`: each record whose id is unprocessed
seeds a group built by `scanGroup`; groups of size 1 are discarded. -/
def findDupAux (threshold : ℚ) :
    List NormalizedProperty → List String → List (List NormalizedProperty)
  | [], _ => []
  | p :: rest, processed =>
    if p.id ∈ processed then findDupAux threshold rest processed
    else
      let sg := scanGroup p threshold rest (p.id :: processed)
      if (p :: sg.1).length > 1 then (p :: sg.1) :: findDupAux threshold rest sg.2
      else findDupAux threshold rest sg.2

/-- `findDuplicates(properties, threshold = 0.85)`. -/
def findDuplicates (properties : List NormalizedProperty)
    (threshold : ℚ := 85 / 100) : List (List NormalizedProperty) :=
  findDupAux threshold properties []

/-- The `reduce` of `deduplicateProperties`:
`(best, current) => current.confidence > best.confidence ? current : best`,
folded left-to-right over the tail of the group with the head as the
initial accumulator members — the first record of maximal confidence wins. -/
def bestOf (seed : NormalizedProperty) (rest : List NormalizedProperty) :
    NormalizedProperty :=
  rest.foldl (fun best current =>
    if best.confidence < current.confidence then current else best) seed

/-- The fresh shared group id `group_${Date.now()}_${random}` generated
for the `k`-th duplicate group; the timestamp/random pair is modelled by
a tag determined by the group's position, which keeps the ids pairwise
distinct (the source relies on clock/randomness for the same purpose). -/
def groupId (k : Nat) : String :=
  "group_" ++ String.mk (List.replicate k '*')

/-- `prop.duplicateGroup = groupId`. -/
def setGroup (gid : String) (p : NormalizedProperty) : NormalizedProperty :=
  { p with duplicateGroup := some gid }

/-- The ids collected into the `duplicateIds` set. -/
def duplicateIdsOf (groups : List (List NormalizedProperty)) : List String :=
  groups.flatMap (fun g => g.map (·.id))

/-- The survivor loop of `deduplicateProperties`: for the `k`-th group
keep `reduce`'s highest-confidence member, tagged with the group id. -/
def survivorsFrom (k : Nat) : List (List NormalizedProperty) → List NormalizedProperty
  | [] => []
  | g :: gs =>
    match g with
    | [] => survivorsFrom (k + 1) gs
    | h :: t => setGroup (groupId k) (bestOf h t) :: survivorsFrom (k + 1) gs

/-- The in-place tagging of every member of every duplicate group
(`prop.duplicateGroup = groupId`), as visible in the returned groups. -/
def tagGroups (k : Nat) : List (List NormalizedProperty) → List (List NormalizedProperty)
  | [] => []
  | g :: gs => g.map (setGroup (groupId k)) :: tagGroups (k + 1) gs

structure DedupResult where
  deduplicatedProperties : List NormalizedProperty
  duplicateGroups : List (List NormalizedProperty)
  removedCount : Int
deriving DecidableEq, Repr

/-- `deduplicateProperties(properties)`: find duplicate groups at the
default threshold, keep records outside every group unchanged (in input
order), then append one tagged survivor per group; the returned groups
carry the tags; `removedCount = properties.length -
deduplicatedProperties.length`. -/
def deduplicateProperties (properties : List NormalizedProperty) : DedupResult :=
  let duplicateGroups := findDuplicates properties
  let duplicateIds := duplicateIdsOf duplicateGroups
  let nonDuplicates := properties.filter (fun p => p.id ∉ duplicateIds)
  let deduplicated := nonDuplicates ++ survivorsFrom 0 duplicateGroups
  { deduplicatedProperties := deduplicated
    duplicateGroups := tagGroups 0 duplicateGroups
    removedCount := (properties.length : Int) - (deduplicated.length : Int) }

structure BatchStatistics where
  totalInput : Nat
  normalizedCount : Nat
  duplicatesFound : Nat
  finalCount : Nat
  averageConfidence : Option ℚ
deriving DecidableEq, Repr

structure BatchResult where
  normalizedProperties : List NormalizedProperty
  deduplicatedProperties : List NormalizedProperty
  statistics : BatchStatistics
deriving DecidableEq, Repr

/-- `processDataBatch(rawProperties)`: normalize all records, deduplicate,
then report statistics; `averageConfidence` is the unguarded quotient
`sum of confidences / deduplicated count` (non-finite — `NaN` — when the
deduplicated list is empty), rounded to 2 decimals. -/
def processDataBatch (rawProperties : List RawProperty) : BatchResult :=
  let normalizedProperties := rawProperties.map normalizeProperty
  let d := deduplicateProperties normalizedProperties
  let averageConfidence :=
    (jsDivQ ((d.deduplicatedProperties.foldl (fun sum p => sum + p.confidence) 0 : ℤ) : ℚ)
            (d.deduplicatedProperties.length : ℚ)).map round2
  { normalizedProperties := normalizedProperties
    deduplicatedProperties := d.deduplicatedProperties
    statistics :=
      { totalInput := rawProperties.length
        normalizedCount := normalizedProperties.length
        duplicatesFound := d.duplicateGroups.length
        finalCount := d.deduplicatedProperties.length
        averageConfidence := averageConfidence } }

/-! ### The in-process job queue (`JobQueueSystem`)

Timestamps (`Date`) are naturals (milliseconds); the `payload`/`result`
`any` fields and the job `type` tag are not consulted by the scheduling,
retry or cancellation logic (the executor outcome is passed in
explicitly), so they are omitted from the embedding. -/

inductive JobStatus where
  | pending
  | running
  | completed
  | failed
  | retrying
deriving DecidableEq, Repr

/-- The `Job` interface (scheduling-relevant fields). -/
structure Job where
  id : String
  priority : Nat
  status : JobStatus
  createdAt : Nat
  startedAt : Option Nat := none
  completedAt : Option Nat := none
  attempts : Nat
  maxAttempts : Nat
  errorMessage : Option String := none
deriving DecidableEq, Repr

/-- The comparator of `sortQueue`: job `a` may precede job `b` iff `a`
has a strictly smaller priority number, or equal priority and a
creation time no later than `b`'s. -/
def jobLe (a b : Job) : Prop :=
  a.priority < b.priority ∨ (a.priority = b.priority ∧ a.createdAt ≤ b.createdAt)

instance : DecidableRel jobLe := fun a b =>
  inferInstanceAs (Decidable (_ ∨ _))

instance : IsTotal Job jobLe where
  total a b := by
    rcases Nat.lt_trichotomy a.priority b.priority with h | h | h
    · exact Or.inl (Or.inl h)
    · rcases Nat.le_total a.createdAt b.createdAt with h' | h'
      · exact Or.inl (Or.inr ⟨h, h'⟩)
      · exact Or.inr (Or.inr ⟨h.symm, h'⟩)
    · exact Or.inr (Or.inl h)

instance : IsTrans Job jobLe where
  trans a b c hab hbc := by
    rcases hab with h1 | ⟨h1, h1'⟩ <;> rcases hbc with h2 | ⟨h2, h2'⟩
    · exact Or.inl (h1.trans h2)
    · exact Or.inl (h2 ▸ h1)
    · exact Or.inl (h1 ▸ h2)
    · exact Or.inr ⟨h1.trans h2, h1'.trans h2'⟩

/-- `sortQueue()`: stable sort of the pending pool by (priority
ascending, then `createdAt` ascending). JS `Array.prototype.sort` is
stable; insertion sort realizes the same ordering. -/
def sortQueue (queue : List Job) : List Job :=
  queue.insertionSort jobLe

/-- `maxConcurrentJobs` of `JobQueueSystem`. -/
def maxConcurrentJobs : Nat := 3

/-- The mutable state of `JobQueueSystem`: the `jobs` map (modelled as
its list of entries), the pending pool `queue`, and the `runningJobs`
set (modelled as the list of jobs currently running). -/
structure QueueState where
  jobs : List Job
  queue : List Job
  running : List Job
deriving DecidableEq, Repr

/-- The initial state of the singleton. -/
def initialState : QueueState :=
  { jobs := [], queue := [], running := [] }

/-- The job record built by `addJob`: status `pending`, zero attempts. -/
def mkJob (id : String) (priority : Nat) (createdAt : Nat) (maxAttempts : Nat) : Job :=
  { id := id
    priority := priority
    status := .pending
    createdAt := createdAt
    attempts := 0
    maxAttempts := maxAttempts }

/-- `addJob`: register the new job in the map, push it onto the pending
pool, re-sort. -/
def addJob (s : QueueState) (id : String) (priority : Nat) (createdAt : Nat)
    (maxAttempts : Nat) : QueueState :=
  let job := mkJob id priority createdAt maxAttempts
  { jobs := s.jobs ++ [job]
    queue := sortQueue (s.queue ++ [job])
    running := s.running }

/-- The prologue of `executeJob`: status `running`, `startedAt` stamped,
`attempts` incremented. -/
def beginJob (job : Job) (now : Nat) : Job :=
  { job with status := .running, startedAt := some now, attempts := job.attempts + 1 }

/-- The catch/epilogue of `executeJob`, applied to the already-begun job:
on success, `completed` with `completedAt`; on a thrown error, either
`retrying` with the message stored and a re-insertion scheduled after
`5000 * attempts` milliseconds (when `attempts < maxAttempts`), or
terminal `failed` with `completedAt` and the message. The second
component is the scheduled retry delay. -/
def settleJob (job : Job) (now : Nat) (outcome : Except String Unit) :
    Job × Option Nat :=
  match outcome with
  | .ok _ => ({ job with status := .completed, completedAt := some now }, none)
  | .error msg =>
    if job.attempts < job.maxAttempts then
      ({ job with status := .retrying, errorMessage := some msg }, some (5000 * job.attempts))
    else
      ({ job with status := .failed, completedAt := some now, errorMessage := some msg }, none)

/-- `executeJob(job)` in full: prologue then try/catch epilogue. The
thrown executor exception is consumed here — `executeJob` is a total
function into `Job × Option Nat`, never a propagated exception. -/
def executeJob (job : Job) (now : Nat) (outcome : Except String Unit) :
    Job × Option Nat :=
  settleJob (beginJob job now) now outcome

/-- Replace the entry of `jobId` in the jobs map. -/
def updateJobs (jobs : List Job) (jobId : String) (job' : Job) : List Job :=
  jobs.map (fun j => if j.id = jobId then job' else j)

/-- The retry timeout body: `queue.unshift(job)` then `sortQueue()`. The
job's status is not touched here — it stays `retrying`. -/
def requeueRetry (s : QueueState) (job : Job) : QueueState :=
  { s with queue := sortQueue (job :: s.queue) }

/-- `cancelJob(jobId)`: `false` on an absent, `running` or `completed`
job; otherwise remove the job from the pending pool (first occurrence,
`findIndex` + `splice`), force `failed` with the cancellation message and
a fresh `completedAt`, and return `true`. -/
def cancelJob (s : QueueState) (jobId : String) (now : Nat) : Bool × QueueState :=
  match s.jobs.find? (fun j => j.id = jobId) with
  | none => (false, s)
  | some job =>
    if job.status = .running ∨ job.status = .completed then (false, s)
    else
      let job' := { job with status := .failed,
                             errorMessage := some "Job cancelled by user",
                             completedAt := some now }
      (true, { jobs := updateJobs s.jobs jobId job'
               queue := s.queue.eraseP (fun j => j.id = jobId)
               running := s.running })

/-- The observable transitions of `JobQueueSystem`. `dispatch` is one
iteration of the `processQueue` loop admitting a job (guarded by
`runningJobs.size < maxConcurrentJobs`); `dropRunningDup` is the loop's
`continue` branch discarding a shifted job already running; `finish*`
are the `executeJob().finally()` completions removing the job from the
running set, with `finishRetry` also running the scheduled timeout that
re-inserts the retrying job. -/
inductive QueueStep : QueueState → QueueState → Prop where
  | add (s : QueueState) (id : String) (priority createdAt maxAttempts : Nat) :
      QueueStep s (addJob s id priority createdAt maxAttempts)
  | dispatch (s : QueueState) (j : Job) (rest : List Job) (now : Nat)
      (hq : s.queue = j :: rest)
      (hcap : s.running.length < maxConcurrentJobs)
      (hnew : ∀ r ∈ s.running, r.id ≠ j.id) :
      QueueStep s { jobs := updateJobs s.jobs j.id (beginJob j now)
                    queue := rest
                    running := s.running ++ [beginJob j now] }
  | dropRunningDup (s : QueueState) (j : Job) (rest : List Job)
      (hq : s.queue = j :: rest)
      (hcap : s.running.length < maxConcurrentJobs)
      (hdup : ∃ r ∈ s.running, r.id = j.id) :
      QueueStep s { s with queue := rest }
  | finishOk (s : QueueState) (j : Job) (pre post : List Job) (now : Nat)
      (hr : s.running = pre ++ j :: post) :
      QueueStep s { jobs := updateJobs s.jobs j.id (settleJob j now (.ok ())).1
                    queue := s.queue
                    running := pre ++ post }
  | finishRetry (s : QueueState) (j : Job) (pre post : List Job) (now : Nat)
      (msg : String)
      (hr : s.running = pre ++ j :: post)
      (hatt : j.attempts < j.maxAttempts) :
      QueueStep s { jobs := updateJobs s.jobs j.id (settleJob j now (.error msg)).1
                    queue := sortQueue ((settleJob j now (.error msg)).1 :: s.queue)
                    running := pre ++ post }
  | finishFail (s : QueueState) (j : Job) (pre post : List Job) (now : Nat)
      (msg : String)
      (hr : s.running = pre ++ j :: post)
      (hatt : ¬ j.attempts < j.maxAttempts) :
      QueueStep s { jobs := updateJobs s.jobs j.id (settleJob j now (.error msg)).1
                    queue := s.queue
                    running := pre ++ post }
  | cancel (s : QueueState) (jobId : String) (now : Nat) :
      QueueStep s (cancelJob s jobId now).2

/-- The states reachable from the initial (empty) queue state. -/
inductive Reachable : QueueState → Prop where
  | init : Reachable initialState
  | step {s s' : QueueState} : Reachable s → QueueStep s s' → Reachable s'

/-! ### Spec-side formulations and concrete sample inputs -/

/-- The confidence score as the specification words it: start at 100,
subtract each penalty, add the source bonus, clamp to `[0, 100]`. To be
compared with `calculateConfidence` as embedded from the source. -/
def confidenceSpec (p : RawProperty) : ℤ :=
  max 0 (min 100 (100
    - (if addressWeak p then 20 else 0)
    - (if addressNoDigit p then 15 else 0)
    - (if zipMissing p then 15 else 0)
    - (if p.city = "" then 10 else 0)
    - (if p.state = "" then 10 else 0)
    - (if p.listingPrice ≤ 0 then 20 else 0)
    - (if p.sqft ≤ 0 then 15 else 0)
    + (if p.source = "LoopNet" then 10
       else if p.source = "Crexi" then 5 else 0)))

/-- A raw record with every field present and a high-trust source. -/
def sampleGoodRaw : RawProperty :=
  { id := "r1", source := "LoopNet", address := "123 Main Street",
    city := "Atlanta", state := "GA", zipCode := some "30301",
    propertyType := "office", listingPrice := 1000000, sqft := 5000 }

/-- A normalized record sharing all location/characteristic fields with
its siblings, differing only in id and normalized address. -/
def sampleNP (id addr : String) : NormalizedProperty :=
  { id := id, source := "LoopNet", normalizedAddress := addr,
    city := "atlanta", state := "GA", zipCode := "30301",
    propertyType := "office", listingPrice := 1000, sqft := 1000,
    pricePerSqft := some 1, confidence := 100, duplicateGroup := none }

def propA : NormalizedProperty := sampleNP "A" "aaaaaaaa"

def propB : NormalizedProperty := sampleNP "B" "aaaaaabb"

def propC : NormalizedProperty := sampleNP "C" "aaaabbbb"

/-- A job with three attempts allowed, as `addJob` creates it. -/
def jobFresh : Job := mkJob "job_1" 3 0 3

/-- A job whose single allowed attempt is about to be consumed. -/
def jobOnce : Job := mkJob "job_2" 3 0 1

/-- A job already in the terminal `failed` state. -/
def jobFailed : Job := { mkJob "job_f" 3 0 3 with status := .failed }

/-- A queue-system state containing only the already-failed job. -/
def stateWithFailed : QueueState :=
  { jobs := [jobFailed], queue := [], running := [] }

/-- A queue-system state containing one pending job, also enqueued. -/
def stateWithPending : QueueState :=
  { jobs := [jobFresh], queue := [jobFresh], running := [] }

/-- Four jobs enqueued with priorities [3,1,2,1] in that order. -/
def c3State : QueueState :=
  addJob (addJob (addJob (addJob initialState "jobA" 3 0 3) "jobB" 1 1 3)
    "jobC" 2 2 3) "jobD" 1 3 3

/-! ### Theorems -/

/-- Shifting the penalty out of a conditional subtraction. -/
theorem ite_sub_shift (b : Prop) [Decidable b] (c k : ℤ) :
    (if b then c - k else c) = c - (if b then k else 0) := by
  split <;> simp

/-- Shifting the source bonus out of the conditional addition. -/
theorem ite_bonus_shift (b1 b2 : Prop) [Decidable b1] [Decidable b2] (c : ℤ) :
    (if b1 then c + 10 else if b2 then c + 5 else c)
      = c + (if b1 then 10 else if b2 then (5 : ℤ) else 0) := by
  split
  · simp
  · split <;> simp

/-- The source's falsy-or-nonpositive test collapses to nonpositivity. -/
theorem falsy_nonpos_iff (q : ℚ) : (q = 0 ∨ q ≤ 0) ↔ q ≤ 0 :=
  ⟨fun h => h.elim le_of_eq id, Or.inr⟩

/-- `calculateConfidence` computes the spec's closed formula: internal
bridging lemma, shared by the developments below. -/
theorem calculateConfidence_eq_formula (p : RawProperty) :
    calculateConfidence p = confidenceSpec p := by
  simp only [calculateConfidence, confidenceSpec, ite_sub_shift,
    ite_bonus_shift, falsy_nonpos_iff]

/-- C1: `calculateConfidence` equals the spec's closed formula — start
at 100, subtract 20 for a missing/short address, 15 for a digitless
address, 15 for a missing zip, 10 each for missing city/state, 20 for a
missing/non-positive price, 15 for a missing/non-positive sqft, add 10
for the high-trust source `LoopNet` or 5 for the medium-trust `Crexi`,
clamp to `[0, 100]`; and a record with all required fields present and a
high-trust source scores exactly 100 after clamping. -/
theorem calculateConfidence_matches_spec :
    (∀ p : RawProperty, calculateConfidence p = confidenceSpec p) ∧
    (∀ p : RawProperty, addressWeak p = false → addressNoDigit p = false →
      zipMissing p = false → p.city ≠ "" → p.state ≠ "" →
      0 < p.listingPrice → 0 < p.sqft → p.source = "LoopNet" →
      calculateConfidence p = 100) := by
  constructor
  · exact calculateConfidence_eq_formula
  · intro p h1 h2 h3 h4 h5 h6 h7 h8
    simp only [calculateConfidence, h1, h2, h3, h4, h5, h8,
      Bool.false_eq_true, if_false, if_neg h4, if_neg h5,
      if_neg (not_or.mpr ⟨ne_of_gt h6, not_le.mpr h6⟩),
      if_neg (not_or.mpr ⟨ne_of_gt h7, not_le.mpr h7⟩), if_pos rfl]
    decide

/-- Witness for C1: the fully-populated high-trust sample scores 100. -/
theorem calculateConfidence_matches_spec_witness :
    calculateConfidence sampleGoodRaw = 100 :=
  calculateConfidence_matches_spec.2 sampleGoodRaw (by decide) (by decide)
    (by decide) (by decide) (by decide) (by decide) (by decide) (by decide)

/-- C10: `processDataBatch` on the empty batch returns empty lists, zero
counts, and an `averageConfidence` that is the unguarded `0/0` — not a
number (`none`, modelling `NaN`), in particular not a rational in
`[0, 100]` and not `0`. -/
theorem processDataBatch_empty_stats :
    (processDataBatch []).normalizedProperties = [] ∧
    (processDataBatch []).deduplicatedProperties = [] ∧
    (processDataBatch []).statistics.totalInput = 0 ∧
    (processDataBatch []).statistics.normalizedCount = 0 ∧
    (processDataBatch []).statistics.duplicatesFound = 0 ∧
    (processDataBatch []).statistics.finalCount = 0 ∧
    (processDataBatch []).statistics.averageConfidence = none ∧
    ¬ ∃ q : ℚ, 0 ≤ q ∧ q ≤ 100 ∧
        (processDataBatch []).statistics.averageConfidence = some q := by
  refine ⟨rfl, rfl, rfl, rfl, rfl, rfl, rfl, ?_⟩
  rintro ⟨q, -, -, h⟩
  exact Option.noConfusion h

/-- C2 (amended): a thrown executor error is consumed by `executeJob`
(a total function — nothing propagates); with the incremented attempt
count still below `maxAttempts` the job transitions to `retrying` with
the error stored and is scheduled for re-insertion into the pending pool
after exactly `5000 ms × attempts` (linear backoff); the re-inserted job
keeps status `retrying` — it is never returned to `pending` — until its
next run marks it `running`; once attempts reach `maxAttempts` the job
transitions to terminal `failed` with `completedAt` stamped and the
error stored. -/
theorem executeJob_failure_transitions (job : Job) (now : Nat) (msg : String) :
    (job.attempts + 1 < job.maxAttempts →
      executeJob job now (.error msg) =
        ({ job with status := .retrying, startedAt := some now,
                    attempts := job.attempts + 1, errorMessage := some msg },
         some (5000 * (job.attempts + 1))) ∧
      (executeJob job now (.error msg)).1.status ≠ .pending) ∧
    (¬ job.attempts + 1 < job.maxAttempts →
      executeJob job now (.error msg) =
        ({ job with status := .failed, startedAt := some now,
                    attempts := job.attempts + 1, completedAt := some now,
                    errorMessage := some msg },
         none)) ∧
    (∀ (s : QueueState) (j : Job),
      j ∈ (requeueRetry s j).queue ∧
      ∀ j' ∈ (requeueRetry s j).queue, j' = j ∨ j' ∈ s.queue) := by
  refine ⟨fun h => ?_, fun h => ?_, fun s j => ?_⟩
  · have he : executeJob job now (.error msg) =
        ({ job with status := .retrying, startedAt := some now,
                    attempts := job.attempts + 1, errorMessage := some msg },
         some (5000 * (job.attempts + 1))) := by
      simp only [executeJob, beginJob, settleJob, if_pos h]
    exact ⟨he, by rw [he]; exact fun hc => JobStatus.noConfusion hc⟩
  · simp only [executeJob, beginJob, settleJob, if_neg h]
  · constructor
    · simp [requeueRetry, sortQueue]
    · intro j' hj'
      simp only [requeueRetry, sortQueue, List.mem_insertionSort,
        List.mem_cons] at hj'
      exact hj'

/-- Witness for C2: a first failure of a three-attempt job retries with a
5000 ms delay; the single-attempt job fails terminally. -/
theorem executeJob_failure_transitions_witness :
    (executeJob jobFresh 1 (.error "boom")).1.status = .retrying ∧
    (executeJob jobOnce 1 (.error "boom")).1.status = .failed := by
  refine ⟨?_, ?_⟩
  · rw [((executeJob_failure_transitions jobFresh 1 "boom").1 (by decide)).1]
  · rw [(executeJob_failure_transitions jobOnce 1 "boom").2.1 (by decide)]

/-- Counterexample for C2 as stated: after a transient failure the job is
re-inserted into the pending pool with status `retrying`, not `pending`,
and its next run moves it directly to `running`; it never re-enters the
`pending` state. -/
theorem executeJob_retry_skips_pending :
    ((executeJob jobFresh 1 (.error "network error")).1.status = .retrying) ∧
    ((executeJob jobFresh 1 (.error "network error")).1.status ≠ .pending) ∧
    ((requeueRetry initialState (executeJob jobFresh 1 (.error "network error")).1).queue
       = [(executeJob jobFresh 1 (.error "network error")).1]) ∧
    (beginJob (executeJob jobFresh 1 (.error "network error")).1 2).status = .running := by
  decide

/-- C8 (amended): `cancelJob` returns `false` and leaves the state
unchanged when the job is absent, `running`, or `completed`; in every
other status — `pending`, `retrying`, and also an already-terminal
`failed` job — it removes the job from the pending pool, forces `failed`
with the cancellation message and a fresh `completedAt`, and returns
`true`. -/
theorem cancelJob_spec (s : QueueState) (jobId : String) (now : Nat) :
    (s.jobs.find? (fun j => j.id = jobId) = none →
      cancelJob s jobId now = (false, s)) ∧
    (∀ job, s.jobs.find? (fun j => j.id = jobId) = some job →
      (job.status = .running ∨ job.status = .completed) →
      cancelJob s jobId now = (false, s)) ∧
    (∀ job, s.jobs.find? (fun j => j.id = jobId) = some job →
      job.status ≠ .running → job.status ≠ .completed →
      cancelJob s jobId now =
        (true, { jobs := updateJobs s.jobs jobId
                   { job with status := .failed,
                              errorMessage := some "Job cancelled by user",
                              completedAt := some now }
                 queue := s.queue.eraseP (fun j => j.id = jobId)
                 running := s.running })) := by
  refine ⟨fun h => ?_, fun job hfind hstat => ?_, fun job hfind h1 h2 => ?_⟩
  · simp only [cancelJob, h]
  · simp only [cancelJob, hfind, if_pos hstat]
  · simp only [cancelJob, hfind, if_neg (by rintro (h | h) <;> contradiction :
      ¬ (job.status = JobStatus.running ∨ job.status = JobStatus.completed))]

/-- Witness for C8: cancelling the pending sample job succeeds. -/
theorem cancelJob_spec_witness :
    (cancelJob stateWithPending "job_1" 7).1 = true := by
  rw [(cancelJob_spec stateWithPending "job_1" 7).2.2 jobFresh (by decide)
    (by decide) (by decide)]

/-- Counterexample for C8 as stated: a job already in the terminal
`failed` state is not rejected — `cancelJob` returns `true` and
overwrites its error message with the cancellation message. -/
theorem cancelJob_true_on_failed :
    jobFailed.status = .failed ∧
    (cancelJob stateWithFailed "job_f" 5).1 = true ∧
    ∃ j ∈ (cancelJob stateWithFailed "job_f" 5).2.jobs,
      j.errorMessage = some "Job cancelled by user" := by
  decide

/-- C3: after every `addJob` call the pending pool is sorted by priority
ascending with ties broken by `createdAt` ascending, and is a
permutation of the old pool plus the new job; concretely, four jobs
enqueued with priorities [3,1,2,1] end up queued — and hence are
dispatched — as [first priority-1 job, second priority-1 job, the
priority-2 job, the priority-3 job]. -/
theorem addJob_sorts_queue :
    (∀ (s : QueueState) (id : String) (priority createdAt maxAttempts : Nat),
      List.Sorted jobLe (addJob s id priority createdAt maxAttempts).queue ∧
      (addJob s id priority createdAt maxAttempts).queue.Perm
        (s.queue ++ [mkJob id priority createdAt maxAttempts])) ∧
    c3State.queue.map (fun j => j.id) = ["jobB", "jobD", "jobC", "jobA"] := by
  constructor
  · intro s id priority createdAt maxAttempts
    exact ⟨List.sorted_insertionSort jobLe _, List.perm_insertionSort jobLe _⟩
  · decide

/-- `cancelJob` never touches the running set. -/
theorem cancelJob_running (s : QueueState) (jobId : String) (now : Nat) :
    (cancelJob s jobId now).2.running = s.running := by
  unfold cancelJob
  cases s.jobs.find? (fun j => j.id = jobId) with
  | none => rfl
  | some job => dsimp only; split <;> rfl

/-- C4: at every reachable state of the queue system, at most
`maxConcurrentJobs = 3` jobs are running simultaneously (and every
member of the running set indeed has status `running`): the `dispatch`
step is guarded by the admission check `running.length <
maxConcurrentJobs` and no other step grows the running set. -/
theorem running_bounded (s : QueueState) (h : Reachable s) :
    s.running.length ≤ maxConcurrentJobs ∧
    ∀ j ∈ s.running, j.status = .running := by
  induction h with
  | init => exact ⟨by simp [initialState], by simp [initialState]⟩
  | step _ hstep ih =>
    cases hstep with
    | add id priority createdAt maxAttempts =>
      exact ⟨ih.1, ih.2⟩
    | dispatch j rest now hq hcap hnew =>
      refine ⟨?_, ?_⟩
      · simp only [List.length_append, List.length_cons, List.length_nil]
        omega
      · intro j' hj'
        rcases List.mem_append.mp hj' with hm | hm
        · exact ih.2 j' hm
        · rw [List.mem_singleton.mp hm]; rfl
    | dropRunningDup j rest hq hcap hdup =>
      exact ⟨ih.1, ih.2⟩
    | finishOk j pre post now hr =>
      have h1 := ih.1
      have h2 := ih.2
      rw [hr] at h1 h2
      refine ⟨?_, ?_⟩
      · simp only [List.length_append, List.length_cons] at h1 ⊢
        omega
      · intro j' hj'
        rcases List.mem_append.mp hj' with hm | hm
        · exact h2 j' (List.mem_append.mpr (Or.inl hm))
        · exact h2 j' (List.mem_append.mpr (Or.inr (List.mem_cons_of_mem _ hm)))
    | finishRetry j pre post now msg hr hatt =>
      have h1 := ih.1
      have h2 := ih.2
      rw [hr] at h1 h2
      refine ⟨?_, ?_⟩
      · simp only [List.length_append, List.length_cons] at h1 ⊢
        omega
      · intro j' hj'
        rcases List.mem_append.mp hj' with hm | hm
        · exact h2 j' (List.mem_append.mpr (Or.inl hm))
        · exact h2 j' (List.mem_append.mpr (Or.inr (List.mem_cons_of_mem _ hm)))
    | finishFail j pre post now msg hr hatt =>
      have h1 := ih.1
      have h2 := ih.2
      rw [hr] at h1 h2
      refine ⟨?_, ?_⟩
      · simp only [List.length_append, List.length_cons] at h1 ⊢
        omega
      · intro j' hj'
        rcases List.mem_append.mp hj' with hm | hm
        · exact h2 j' (List.mem_append.mpr (Or.inl hm))
        · exact h2 j' (List.mem_append.mpr (Or.inr (List.mem_cons_of_mem _ hm)))
    | cancel jobId now =>
      rw [cancelJob_running]
      exact ⟨ih.1, ih.2⟩

/-- Witness for C4: the initial state is reachable and satisfies the
bound. -/
theorem running_bounded_witness :
    Reachable initialState ∧ initialState.running.length ≤ maxConcurrentJobs :=
  ⟨Reachable.init, (running_bounded initialState Reachable.init).1⟩

/-- Every record collected by `scanGroup` comes from the scanned suffix
and has seed-similarity at least the threshold. -/
theorem scanGroup_sound (seed : NormalizedProperty) (θ : ℚ) :
    ∀ (rs : List NormalizedProperty) (processed : List String),
      ∀ r ∈ (scanGroup seed θ rs processed).1,
        r ∈ rs ∧ similarityAtLeast θ seed r = true := by
  intro rs
  induction rs with
  | nil => intro processed r hr; simp [scanGroup] at hr
  | cons x xs ih =>
    intro processed r hr
    simp only [scanGroup] at hr
    by_cases h1 : x.id ∈ processed
    · rw [if_pos h1] at hr
      obtain ⟨hm, hs⟩ := ih processed r hr
      exact ⟨List.mem_cons_of_mem _ hm, hs⟩
    · rw [if_neg h1] at hr
      by_cases h2 : similarityAtLeast θ seed x = true
      · rw [if_pos h2] at hr
        rcases List.mem_cons.mp hr with h | h
        · subst h; exact ⟨List.mem_cons_self _ _, h2⟩
        · obtain ⟨hm, hs⟩ := ih _ r h
          exact ⟨List.mem_cons_of_mem _ hm, hs⟩
      · rw [if_neg h2] at hr
        obtain ⟨hm, hs⟩ := ih processed r hr
        exact ⟨List.mem_cons_of_mem _ hm, hs⟩

/-- Every group produced by `findDupAux` has at least two members and
consists of a seed from the input followed by later input records whose
similarity with that seed reaches the threshold. -/
theorem findDupAux_sound (θ : ℚ) :
    ∀ (props : List NormalizedProperty) (processed : List String),
      ∀ g ∈ findDupAux θ props processed,
        2 ≤ g.length ∧ ∃ seed rest, g = seed :: rest ∧ seed ∈ props ∧
          (∀ r ∈ rest, r ∈ props) ∧
          ∀ r ∈ rest, similarityAtLeast θ seed r = true := by
  intro props
  induction props with
  | nil => intro processed g hg; simp [findDupAux] at hg
  | cons p ps ih =>
    intro processed g hg
    simp only [findDupAux] at hg
    by_cases h1 : p.id ∈ processed
    · rw [if_pos h1] at hg
      obtain ⟨hl, seed, rest, hgeq, hseed, hrest, hsim⟩ := ih _ g hg
      exact ⟨hl, seed, rest, hgeq, List.mem_cons_of_mem _ hseed,
        fun r hr => List.mem_cons_of_mem _ (hrest r hr), hsim⟩
    · rw [if_neg h1] at hg
      by_cases h2 : (p :: (scanGroup p θ ps (p.id :: processed)).1).length > 1
      · rw [if_pos h2] at hg
        rcases List.mem_cons.mp hg with h | h
        · subst h
          refine ⟨h2, p, _, rfl, List.mem_cons_self _ _, ?_, ?_⟩
          · intro r hr
            exact List.mem_cons_of_mem _ ((scanGroup_sound p θ ps _ r hr).1)
          · intro r hr
            exact (scanGroup_sound p θ ps _ r hr).2
        · obtain ⟨hl, seed, rest, hgeq, hseed, hrest, hsim⟩ := ih _ g h
          exact ⟨hl, seed, rest, hgeq, List.mem_cons_of_mem _ hseed,
            fun r hr => List.mem_cons_of_mem _ (hrest r hr), hsim⟩
      · rw [if_neg h2] at hg
        obtain ⟨hl, seed, rest, hgeq, hseed, hrest, hsim⟩ := ih _ g hg
        exact ⟨hl, seed, rest, hgeq, List.mem_cons_of_mem _ hseed,
          fun r hr => List.mem_cons_of_mem _ (hrest r hr), hsim⟩

/-- C5: for every record list and threshold, every group returned by
`findDuplicates` has size at least 2 (singletons are discarded), and
each group is a seed record of the input followed by later input records
each of whose similarity with that seed reaches the threshold. -/
theorem findDuplicates_groups (props : List NormalizedProperty) (θ : ℚ) :
    ∀ g ∈ findDuplicates props θ,
      2 ≤ g.length ∧ ∃ seed rest, g = seed :: rest ∧ seed ∈ props ∧
        (∀ r ∈ rest, r ∈ props) ∧
        ∀ r ∈ rest, similarityAtLeast θ seed r = true :=
  fun g hg => findDupAux_sound θ props [] g hg

/-- Witness for C5: at the default threshold the sample list yields the
group `[propA, propB]`, of size 2. -/
theorem findDuplicates_groups_witness :
    [propA, propB] ∈ findDuplicates [propA, propB, propC] (85 / 100) ∧
    2 ≤ ([propA, propB] : List NormalizedProperty).length :=
  ⟨by decide, (findDuplicates_groups [propA, propB, propC] (85 / 100)
    [propA, propB] (by decide)).1⟩

/-- C6 (amended): for records A, B, C in that input order with
`sim(A,B) ≥ θ`, `sim(B,C) ≥ θ` but `sim(A,C) < θ` (distinct ids),
`findDuplicates` does NOT pull C into A's cluster: membership is decided
solely by similarity to the seed A, so the result is exactly `[[A, B]]`
and C — whose own group stays a discarded singleton — is grouped with
nothing. -/
theorem findDuplicates_seed_only (A B C : NormalizedProperty) (θ : ℚ)
    (hAB : A.id ≠ B.id) (hAC : A.id ≠ C.id) (hBC : B.id ≠ C.id)
    (h1 : similarityAtLeast θ A B = true)
    (h2 : similarityAtLeast θ B C = true)
    (h3 : similarityAtLeast θ A C = false) :
    findDuplicates [A, B, C] θ = [[A, B]] := by
  have e1 : (B.id ∈ ([A.id] : List String)) = False := by
    simp [Ne.symm hAB]
  have e2 : (C.id ∈ ([B.id, A.id] : List String)) = False := by
    simp [Ne.symm hAC, Ne.symm hBC]
  have e3 : (B.id ∈ ([B.id, A.id] : List String)) = True := by simp
  have e4 : (C.id ∈ ([B.id, A.id] : List String)) = False := e2
  simp only [findDuplicates, findDupAux, scanGroup, List.not_mem_nil,
    if_false, iff_false, e1, e2, e3, e4, h1, h3, if_true, if_false,
    Bool.false_eq_true, List.length_cons, List.length_nil, eq_self_iff_true,
    List.not_mem_nil, Nat.lt_irrefl, gt_iff_lt]
  norm_num

/-- Witness for the amended C6: the sample triple computes to exactly
one group `[propA, propB]`. -/
theorem findDuplicates_seed_only_witness :
    findDuplicates [propA, propB, propC] (85 / 100) = [[propA, propB]] :=
  findDuplicates_seed_only propA propB propC (85 / 100) (by decide)
    (by decide) (by decide) (by decide) (by decide) (by decide)

/-- Counterexample for C6 as stated: with `sim(A,B) ≥ 0.85`,
`sim(B,C) ≥ 0.85`, `sim(A,C) < 0.85`, record C is NOT grouped into A's
cluster — it belongs to no returned group at all. -/
theorem findDuplicates_not_transitive :
    similarityAtLeast (85 / 100) propA propB = true ∧
    similarityAtLeast (85 / 100) propB propC = true ∧
    similarityAtLeast (85 / 100) propA propC = false ∧
    findDuplicates [propA, propB, propC] (85 / 100) = [[propA, propB]] ∧
    ∀ g ∈ findDuplicates [propA, propB, propC] (85 / 100), propC ∉ g := by
  decide

/-- Unfolding `bestOf` one step. -/
theorem bestOf_cons (seed c : NormalizedProperty) (rs : List NormalizedProperty) :
    bestOf seed (c :: rs)
      = bestOf (if seed.confidence < c.confidence then c else seed) rs := rfl

/-- The `reduce` keeps a member of the group, of maximal confidence, and
the first member attaining that maximum (strict comparison means an
earlier tie is never displaced). -/
theorem bestOf_spec (rest : List NormalizedProperty) :
    ∀ seed : NormalizedProperty,
      bestOf seed rest ∈ seed :: rest ∧
      (∀ m ∈ seed :: rest, m.confidence ≤ (bestOf seed rest).confidence) ∧
      ∃ pre post, seed :: rest = pre ++ bestOf seed rest :: post ∧
        ∀ m ∈ pre, m.confidence < (bestOf seed rest).confidence := by
  induction rest with
  | nil =>
    intro seed
    exact ⟨List.mem_cons_self _ _,
      fun m hm => by rw [List.mem_singleton.mp hm]; exact le_refl _,
      [], [], rfl, fun m hm => absurd hm (List.not_mem_nil m)⟩
  | cons c rs ih =>
    intro seed
    rw [bestOf_cons]
    by_cases hsc : seed.confidence < c.confidence
    · rw [if_pos hsc]
      obtain ⟨hmem, hmax, pre, post, heq, hlt⟩ := ih c
      have hcb : c.confidence ≤ (bestOf c rs).confidence :=
        hmax c (List.mem_cons_self _ _)
      refine ⟨List.mem_cons_of_mem _ hmem, ?_, seed :: pre, post, ?_, ?_⟩
      · intro m hm
        rcases List.mem_cons.mp hm with h | h
        · rw [h]; exact le_of_lt (lt_of_lt_of_le hsc hcb)
        · exact hmax m h
      · rw [List.cons_append, ← heq]
      · intro m hm
        rcases List.mem_cons.mp hm with h | h
        · rw [h]; exact lt_of_lt_of_le hsc hcb
        · exact hlt m h
    · rw [if_neg hsc]
      obtain ⟨hmem, hmax, pre, post, heq, hlt⟩ := ih seed
      have hcb : c.confidence ≤ (bestOf seed rs).confidence :=
        le_trans (not_lt.mp hsc) (hmax seed (List.mem_cons_self _ _))
      refine ⟨?_, ?_, ?_⟩
      · rcases List.mem_cons.mp hmem with h | h
        · rw [h]; exact List.mem_cons_self _ _
        · exact List.mem_cons_of_mem _ (List.mem_cons_of_mem _ h)
      · intro m hm
        rcases List.mem_cons.mp hm with h | h
        · rw [h]; exact hmax seed (List.mem_cons_self _ _)
        rcases List.mem_cons.mp h with h' | h'
        · rw [h']; exact hcb
        · exact hmax m (List.mem_cons_of_mem _ h')
      · cases pre with
        | nil =>
          have h1 : seed = bestOf seed rs := (List.cons.injEq _ _ _ _ ▸ heq).1
          refine ⟨[], c :: post, ?_, fun m hm => absurd hm (List.not_mem_nil m)⟩
          have h2 : rs = post := (List.cons.injEq _ _ _ _ ▸ heq).2
          rw [List.nil_append, ← h1, h2]
        | cons q pre' =>
          have h1 : seed = q := (List.cons.injEq _ _ _ _ ▸ heq).1
          have h2 : rs = pre' ++ bestOf seed rs :: post :=
            (List.cons.injEq _ _ _ _ ▸ heq).2
          have hq : seed.confidence < (bestOf seed rs).confidence := by
            have hx := hlt q (List.mem_cons_self _ _)
            rw [← h1] at hx
            exact hx
          refine ⟨seed :: c :: pre', post, ?_, ?_⟩
          · rw [List.cons_append, List.cons_append, ← h2]
          · intro m hm
            rcases List.mem_cons.mp hm with h | h
            · rw [h]; exact hq
            rcases List.mem_cons.mp h with h' | h'
            · rw [h']; exact lt_of_le_of_lt (not_lt.mp hsc) hq
            · exact hlt m (List.mem_cons_of_mem _ h')

/-- Positional description of the tagged groups returned by
`deduplicateProperties`. -/
theorem tagGroups_get (gs : List (List NormalizedProperty)) :
    ∀ k i : Nat,
      (tagGroups k gs).get? i
        = (gs.get? i).map (List.map (setGroup (groupId (k + i)))) := by
  induction gs with
  | nil => intro k i; simp [tagGroups]
  | cons g gs ih =>
    intro k i
    cases i with
    | zero => simp [tagGroups]
    | succ n =>
      rw [show k + (n + 1) = (k + 1) + n by omega]
      simp only [tagGroups, List.get?_cons_succ]
      exact ih (k + 1) n

/-- The survivor list has one entry per (nonempty) group, and contains
the tagged best member of each group. -/
theorem survivorsFrom_spec :
    ∀ (gs : List (List NormalizedProperty)), (∀ g ∈ gs, g ≠ []) → ∀ k : Nat,
      (survivorsFrom k gs).length = gs.length ∧
      ∀ (i : Nat) (h : NormalizedProperty) (t : List NormalizedProperty),
        gs.get? i = some (h :: t) →
        setGroup (groupId (k + i)) (bestOf h t) ∈ survivorsFrom k gs := by
  intro gs
  induction gs with
  | nil =>
    intro _ k
    exact ⟨rfl, by intro i h t hi; simp at hi⟩
  | cons g gs ih =>
    intro hne k
    obtain ⟨h0, t0, rfl⟩ : ∃ h0 t0, g = h0 :: t0 := by
      cases g with
      | nil => exact absurd rfl (hne [] (List.mem_cons_self _ _))
      | cons h0 t0 => exact ⟨h0, t0, rfl⟩
    have ih' := ih (fun g' hg' => hne g' (List.mem_cons_of_mem _ hg')) (k + 1)
    refine ⟨?_, ?_⟩
    · simp [survivorsFrom, ih'.1]
    · intro i h t hi
      cases i with
      | zero =>
        simp only [List.get?_cons_zero, Option.some.injEq, List.cons.injEq] at hi
        rw [Nat.add_zero, hi.1, hi.2]
        exact List.mem_cons_self _ _
      | succ n =>
        rw [List.get?_cons_succ] at hi
        have hm := ih'.2 n h t hi
        rw [show k + (n + 1) = (k + 1) + n by omega]
        exact List.mem_cons_of_mem _ hm

/-- Every duplicate group is nonempty (it has at least two members). -/
theorem findDuplicates_ne_nil (ps : List NormalizedProperty) :
    ∀ g ∈ findDuplicates ps, g ≠ [] := by
  intro g hg
  have h2 := (findDupAux_sound (85 / 100) ps [] g hg).1
  intro hnil
  rw [hnil] at h2
  exact absurd h2 (by simp)

/-- The position-determined group tags are pairwise distinct. -/
theorem groupId_injective (i j : Nat) (h : groupId i = groupId j) : i = j := by
  have h2 : "group_".data ++ List.replicate i '*'
      = "group_".data ++ List.replicate j '*' := congrArg String.data h
  have h3 := List.append_cancel_left h2
  have h4 := congrArg List.length h3
  simpa using h4

/-- C7: `deduplicateProperties` keeps every record outside all duplicate
groups unchanged (its `duplicateGroup` stays unset); from the `i`-th
duplicate group it keeps exactly one survivor — the first member of
maximal confidence (strict `>` in the reduce means the first-seen record
wins an exact tie) — tagged with the group's id; every member of the
returned `i`-th group carries that same id, the ids of distinct groups
are distinct; the output length is the number of non-duplicates plus one
survivor per group, and `removedCount` is the input length minus the
output length. -/
theorem deduplicateProperties_spec (ps : List NormalizedProperty)
    (hclean : ∀ p ∈ ps, p.duplicateGroup = none) :
    (∀ p ∈ ps, p.id ∉ duplicateIdsOf (findDuplicates ps) →
        p ∈ (deduplicateProperties ps).deduplicatedProperties ∧
        p.duplicateGroup = none) ∧
    (∀ (i : Nat) (g : List NormalizedProperty),
        (findDuplicates ps).get? i = some g →
        ∃ h t, g = h :: t ∧
          setGroup (groupId i) (bestOf h t)
            ∈ (deduplicateProperties ps).deduplicatedProperties ∧
          bestOf h t ∈ g ∧
          (∀ m ∈ g, m.confidence ≤ (bestOf h t).confidence) ∧
          (∃ pre post, g = pre ++ bestOf h t :: post ∧
            ∀ m ∈ pre, m.confidence < (bestOf h t).confidence) ∧
          (deduplicateProperties ps).duplicateGroups.get? i
            = some (g.map (setGroup (groupId i))) ∧
          ∀ q ∈ g.map (setGroup (groupId i)),
            q.duplicateGroup = some (groupId i)) ∧
    (∀ i j : Nat, groupId i = groupId j → i = j) ∧
    ((deduplicateProperties ps).deduplicatedProperties.length
        = (ps.filter
            (fun p => p.id ∉ duplicateIdsOf (findDuplicates ps))).length
          + (findDuplicates ps).length) ∧
    ((deduplicateProperties ps).removedCount
        = (ps.length : Int)
          - ((deduplicateProperties ps).deduplicatedProperties.length : Int)) := by
  have hne := findDuplicates_ne_nil ps
  have hsurv := survivorsFrom_spec (findDuplicates ps) hne 0
  refine ⟨?_, ?_, groupId_injective, ?_, rfl⟩
  · intro p hp hid
    refine ⟨?_, hclean p hp⟩
    exact List.mem_append.mpr (Or.inl (List.mem_filter.mpr ⟨hp, by simpa using hid⟩))
  · intro i g hgi
    have hgm : g ∈ findDuplicates ps := List.get?_mem hgi
    obtain ⟨-, seed, rest, rfl, -, -, -⟩ :=
      findDupAux_sound (85 / 100) ps [] _ hgm
    obtain ⟨hbmem, hbmax, pre, post, hbeq, hblt⟩ := bestOf_spec rest seed
    refine ⟨seed, rest, rfl, ?_, hbmem, hbmax, ⟨pre, post, hbeq, hblt⟩, ?_, ?_⟩
    · have hm := hsurv.2 i seed rest hgi
      rw [Nat.zero_add] at hm
      exact List.mem_append.mpr (Or.inr hm)
    · have := tagGroups_get (findDuplicates ps) 0 i
      rw [Nat.zero_add, hgi] at this
      exact this
    · intro q hq
      obtain ⟨m, _, rfl⟩ := List.mem_map.mp hq
      rfl
  · have : (deduplicateProperties ps).deduplicatedProperties
        = (ps.filter (fun p => p.id ∉ duplicateIdsOf (findDuplicates ps)))
          ++ survivorsFrom 0 (findDuplicates ps) := rfl
    rw [this, List.length_append, hsurv.1]

/-- Witness for C7: on the sample triple the output size is the one
non-duplicate plus one survivor for the single group. -/
theorem deduplicateProperties_spec_witness :
    (deduplicateProperties [propA, propB, propC]).deduplicatedProperties.length
      = ([propA, propB, propC].filter
          (fun p => p.id ∉ duplicateIdsOf (findDuplicates [propA, propB, propC]))).length
        + (findDuplicates [propA, propB, propC]).length :=
  (deduplicateProperties_spec [propA, propB, propC] (by decide)).2.2.2.1

/-- C9: every normalization-engine operation is a total function over
the documented input shape — `calculateConfidence` yields a score in
`[0, 100]` for every record (empty strings, missing zip, non-positive
numbers included), `normalizeProperty` always produces a record carrying
that score, `normalizeZipCode` always yields a 5-character zip,
the string canonicalizers accept the degenerate empty string, and a
missing zip degrades the confidence score (never an error). -/
theorem normalization_total :
    (∀ p : RawProperty,
      0 ≤ calculateConfidence p ∧ calculateConfidence p ≤ 100) ∧
    (∀ p : RawProperty,
      (normalizeProperty p).confidence = calculateConfidence p ∧
      (normalizeProperty p).id = p.id) ∧
    (∀ zip : String, (normalizeZipCode zip).length = 5) ∧
    (normalizeAddress "" = "" ∧ normalizePropertyType "" = "" ∧
      normalizeState "" = "") ∧
    (∀ (p : RawProperty) (z : String), z ≠ "" →
      calculateConfidence { p with zipCode := none }
        ≤ calculateConfidence { p with zipCode := some z }) := by
  refine ⟨?_, fun p => ⟨rfl, rfl⟩, ?_, ⟨rfl, rfl, rfl⟩, ?_⟩
  · intro p
    exact ⟨le_max_left 0 _, max_le (by norm_num) (min_le_left _ _)⟩
  · intro zip
    show (List.replicate (5 - ((zip.data.filter Char.isDigit).take 5).length) '0'
      ++ (zip.data.filter Char.isDigit).take 5).length = 5
    rw [List.length_append, List.length_replicate]
    have h := List.length_take_le 5 (zip.data.filter Char.isDigit)
    omega
  · intro p z hz
    rw [calculateConfidence_eq_formula, calculateConfidence_eq_formula]
    unfold confidenceSpec
    dsimp only [addressWeak, addressNoDigit, zipMissing]
    simp only [hz, decide_False, Bool.false_eq_true, if_false, if_true,
      decide_eq_true_eq]
    apply max_le_max (le_refl (0 : ℤ))
    apply min_le_min (le_refl (100 : ℤ))
    omega

/-- Witness for C9: restoring the sample's zip never lowers its score. -/
theorem normalization_total_witness :
    calculateConfidence { sampleGoodRaw with zipCode := none }
      ≤ calculateConfidence { sampleGoodRaw with zipCode := some "30301" } :=
  normalization_total.2.2.2.2 sampleGoodRaw "30301" (by decide)

end RealEstate
